import Mathlib

/-!
Verification of the Matrix-Factorization recommender core (Funk-SVD with
biases, trained client-side by SGD) against its specification.

The embedding translates the training routine `trainMF`, the math helpers
(`dot`, the squared norm underlying `l2norm`), the item-vector
normalization that builds `Qunit`, and the query `topKSimilarItems` from
the source.  Real-number arithmetic is modelled over `ℚ`; the square root
inside `l2norm` is abstracted as a parameter `n` (resp. `nrm`)
characterized by `0 ≤ n` and `n * n = sumSq v`, which is exactly the
defining property of the nonnegative square root.  Randomness (the
`randSmall` initializer and the per-epoch Fisher-Yates shuffle) is
abstracted as explicit parameters `P0`, `Q0` and `sh`, matching the
design note that the random source is injectable.
-/

namespace MFRec

/-! ### Math helpers (source lines 100-116) -/

/-- `dot(a, b)`: sum of pairwise products.  The source loops `k` over
`a.length` reading `b[k]`; in every call site both vectors have length
`K`, and for equal-length vectors this structural recursion computes the
same sum. -/
def dot : List ℚ → List ℚ → ℚ
  | a :: as, b :: bs => a * b + dot as bs
  | _, _ => 0

/-- The sum of squares accumulated by `l2norm(v)` before taking
`Math.sqrt`; `l2norm v = sqrt (sumSq v)`. -/
def sumSq (v : List ℚ) : ℚ := v.foldl (fun s x => s + x * x) 0

/-! ### Similarity index (source lines 207-244) -/

/-- One entry of the `Qunit` table (source lines 208-215): given the
factor vector `v` of an item and the value `n` computed as `l2norm(v)`
(abstracted; characterized in the theorems by `0 ≤ n` and
`n * n = sumSq v`), return the all-zero vector of length `K` when
`n === 0`, else the vector of the `v[k] / n` for `k < K`.  The division
is only ever performed under the guard `n ≠ 0`. -/
def normalizeItem (K : ℕ) (v : List ℚ) (n : ℚ) : List ℚ :=
  if n = 0 then List.replicate K 0
  else (List.range K).map fun k => v.getD k 0 / n

/-- The candidate list built by `topKSimilarItems` (source lines
225-232): for every index `j` of the `Qunit` table except the query
index `i`, the pair `(j, dot(Qunit[i], Qunit[j]))`. -/
def candidates (Qunit : List (List ℚ)) (i : ℕ) : List (ℕ × ℚ) :=
  (List.range Qunit.length).filterMap fun j =>
    if j = i then none
    else some (j, dot (Qunit.getD i []) (Qunit.getD j []))

/-- The comparator of source line 234, `(a, b) => b.sim - a.sim`, as a
boolean order: `a` may precede `b` when `b.sim ≤ a.sim` (descending by
similarity). -/
def simLe (a b : ℕ × ℚ) : Bool := decide (b.2 ≤ a.2)

/-- `sims.sort((a, b) => b.sim - a.sim)` (source line 234): a comparison
sort by descending similarity. -/
def sortSims (l : List (ℕ × ℚ)) : List (ℕ × ℚ) := l.mergeSort simLe

/-- JavaScript `Array.prototype.slice(0, k)` for an integer `k`: a
nonnegative `k` keeps the first `min(k, length)` elements; a negative
`k` is interpreted relative to the end, keeping the first
`max(length + k, 0)` elements. -/
def jsSlice {α : Type} (l : List α) (k : ℤ) : List α :=
  if 0 ≤ k then l.take k.toNat else l.take (l.length - (-k).toNat)

/-- The index-level core of `topKSimilarItems` (source lines 224-235):
rank all candidate items by descending cosine similarity and keep the
`slice(0, k)` prefix. -/
def topKSimilarIdx (Qunit : List (List ℚ)) (i : ℕ) (k : ℤ) : List (ℕ × ℚ) :=
  jsSlice (sortSims (candidates Qunit i)) k

/-- The query-time state read by `topKSimilarItems`: the `itemIdToIndex`
map (as an association list), its inverse array `indexToItemId` (JS
arrays admit holes, hence `Option`), and the normalized item table
`Qunit`. -/
structure SimIndex where
  itemIdToIndex : List (ℕ × ℕ)
  indexToItemId : List (Option ℕ)
  Qunit : List (List ℚ)
deriving DecidableEq

/-- `topKSimilarItems(itemId, k)` (source lines 220-244): resolve the
item id through `itemIdToIndex`; when the id is unknown (`i == null`) or
the model is untrained (`!Qunit.length`) return `[]`; otherwise rank,
slice, and translate indices back to item ids through `indexToItemId`
(the title decoration of lines 236-241 reads only the external catalog
and is dropped). -/
def topKSimilarItems (st : SimIndex) (itemId : ℕ) (k : ℤ) :
    List (Option ℕ × ℚ) :=
  match st.itemIdToIndex.lookup itemId with
  | none => []
  | some i =>
    if st.Qunit.length = 0 then []
    else (topKSimilarIdx st.Qunit i k).map fun p =>
      (st.indexToItemId.getD p.1 none, p.2)

/-! ### Trainer (source lines 28-34 and 131-216) -/

/-- A parsed rating event from the loader. -/
structure Rating where
  userId : ℕ
  itemId : ℕ
  rating : ℚ
deriving DecidableEq

/-- The hyperparameters of source lines 29-34 (`SHUFFLE` is absorbed
into the injected shuffle `sh`: the identity models `SHUFFLE = false`). -/
structure Cfg where
  K : ℕ
  epochs : ℕ
  lr : ℚ
  reg : ℚ
  yieldEvery : ℕ
deriving DecidableEq

/-- The constants of source lines 29-34. -/
def defaultCfg : Cfg := ⟨20, 12, 1/100, 1/20, 5000⟩

/-- One entry of the fast index-triplet list of source lines 157-161:
`Map.get` yields `undefined` for an unmapped id, modelled as `none`. -/
structure Triplet where
  u : Option ℕ
  i : Option ℕ
  r : ℚ
deriving DecidableEq

/-- The module-level mutable model state of source lines 37-47 that
`trainMF` assigns into. -/
structure MFState where
  mu : ℚ
  bu : List ℚ
  bi : List ℚ
  P : List (List ℚ)
  Q : List (List ℚ)
  Qunit : List (List ℚ)
  indexToItemId : List (Option ℕ)
  indexToUserId : List (Option ℕ)
deriving DecidableEq

/-- How `trainMF` can fail: the explicit empty-dataset throw of source
line 136, and the implicit JavaScript `TypeError` raised when an update
dereferences `P[undefined]` or `Q[undefined]` (an unmapped id in a
triplet). -/
inductive TrainError
  | emptyDataset
  | typeError
deriving DecidableEq

/-- `arr[idx] = v` on a JavaScript array that may be shorter than
`idx + 1`: assignment grows the array, leaving holes (`none`). -/
def setGrow (l : List (Option ℕ)) (idx v : ℕ) : List (Option ℕ) :=
  if idx < l.length then l.set idx (some v)
  else (l ++ List.replicate (idx - l.length) none) ++ [some v]

/-- The inverse index maps built at source lines 140-143:
`for ([id, idx] of map) arr[idx] = id` starting from `[]`. -/
def buildInverse (m : List (ℕ × ℕ)) : List (Option ℕ) :=
  m.foldl (fun acc p => setGrow acc p.2 p.1) []

/-- One iteration of the inner factor loop (source lines 188-191): read
the pre-update pair `p = pu[k]`, `q = qi[k]`, then write both entries. -/
def sgdFactorStep (lr reg e : ℚ) (pq : List ℚ × List ℚ) (k : ℕ) :
    List ℚ × List ℚ :=
  let p := pq.1.getD k 0
  let q := pq.2.getD k 0
  (pq.1.set k (p + lr * (e * q - reg * p)),
   pq.2.set k (q + lr * (e * p - reg * q)))

/-- The inner factor loop of source lines 187-192: `for k in [0, K)`,
updating the two rows in place, in ascending order of `k`. -/
def sgdFactorLoop (lr reg e : ℚ) (pu qi : List ℚ) (K : ℕ) :
    List ℚ × List ℚ :=
  (List.range K).foldl (sgdFactorStep lr reg e) (pu, qi)

/-- One SGD update (source lines 171-192).  When either index is
`undefined` the source crashes inside `dot` (reading `.length` of
`undefined`) before writing anything, modelled as a `typeError` with the
state untouched.  Otherwise: predict, form the residual, update the two
biases, then run the factor loop on the two aliased rows. -/
def sgdUpdate (cfg : Cfg) (st : MFState) (t : Triplet) :
    MFState × Option TrainError :=
  match t.u, t.i with
  | some u, some i =>
    let pu := st.P.getD u []
    let qi := st.Q.getD i []
    let rhat := st.mu + st.bu.getD u 0 + st.bi.getD i 0 + dot pu qi
    let e := t.r - rhat
    let bu' := st.bu.set u (st.bu.getD u 0 + cfg.lr * (e - cfg.reg * st.bu.getD u 0))
    let bi' := st.bi.set i (st.bi.getD i 0 + cfg.lr * (e - cfg.reg * st.bi.getD i 0))
    let pq := sgdFactorLoop cfg.lr cfg.reg e pu qi cfg.K
    ({ st with bu := bu', bi := bi', P := st.P.set u pq.1, Q := st.Q.set i pq.2 },
     none)
  | _, _ => (st, some .typeError)

/-- One epoch body (source lines 171-200): fold the updates over the
(already shuffled) triplet list, stopping at the first crash with the
mutations made so far retained (they live in module-level state).  The
`sqErr`/`count` accumulators of lines 167-180 only feed the RMSE status
message and are omitted. -/
def runEpoch (cfg : Cfg) : MFState → List Triplet → MFState × Option TrainError
  | st, [] => (st, none)
  | st, t :: ts =>
    match sgdUpdate cfg st t with
    | (st', none) => runEpoch cfg st' ts
    | (st', some e) => (st', some e)

/-- The epoch loop of source lines 164-205: each epoch first shuffles
the triplet list in place (`sh e` applied to the previous list, modelling
the cumulative in-place Fisher-Yates of line 165), then runs the epoch
body.  `e` is the epoch number, the second argument the number of epochs
remaining. -/
def runEpochs (cfg : Cfg) (sh : ℕ → List Triplet → List Triplet) :
    ℕ → ℕ → MFState → List Triplet → MFState × Option TrainError
  | _, 0, st, _ => (st, none)
  | e, rem + 1, st, ts =>
    let ts' := sh e ts
    match runEpoch cfg st ts' with
    | (st', none) => runEpochs cfg sh (e + 1) rem st' ts'
    | (st', some err) => (st', some err)

/-- `trainMF()` (source lines 131-216), in state-passing form over the
module-level globals `st0`.  Parameters abstracting the environment:
`sh` the per-epoch shuffle, `nrm` the `l2norm` function (characterized
where needed by `0 ≤ nrm v` and `nrm v * nrm v = sumSq v`), `P0`/`Q0`
the `randSmall` initial factor matrices of lines 153-154.  Steps in
source order: the empty-dataset guard (line 135, before any
allocation), the inverse maps (140-143), the global mean (146-148), the
parameter allocation (151-154), the triplet list (157-161), the epoch
loop, and finally the `Qunit` normalization (208-215), skipped when the
loop crashed. -/
def trainMF (cfg : Cfg) (sh : ℕ → List Triplet → List Triplet)
    (nrm : List ℚ → ℚ) (P0 Q0 : List (List ℚ))
    (ratings : List Rating) (uMap iMap : List (ℕ × ℕ))
    (st0 : MFState) : MFState × Option TrainError :=
  let U := uMap.length
  let I := iMap.length
  if ratings.length = 0 ∨ U = 0 ∨ I = 0 then
    (st0, some .emptyDataset)
  else
    let st1 := { st0 with
      indexToItemId := buildInverse iMap
      indexToUserId := buildInverse uMap }
    let mu := (ratings.foldl (fun s r => s + r.rating) 0) / (ratings.length : ℚ)
    let st2 := { st1 with
      mu := mu
      bu := List.replicate U 0
      bi := List.replicate I 0
      P := P0
      Q := Q0 }
    let trips := ratings.map fun r =>
      Triplet.mk (uMap.lookup r.userId) (iMap.lookup r.itemId) r.rating
    match runEpochs cfg sh 1 cfg.epochs st2 trips with
    | (st3, none) =>
      ({ st3 with Qunit := st3.Q.map fun v => normalizeItem cfg.K v (nrm v) },
       none)
    | (st3, some e) => (st3, some e)

/-! ### Yield-cadence trace (source lines 164-205)

The suspension behavior of the training loop: per update the loop body
runs lines 171-192 with no `await` between them (one atomic `upd`
event), then increments `sinceYield` and, when it reaches `YIELD_EVERY`,
resets it and awaits the next animation frame (`yld`, line 198); after
the per-epoch loop one more `await` runs at line 204 (`yld`).  The
branch on `sinceYield` is independent of the numeric state, so the
event trace of a run in which every index resolves is a function of the
cadence `Y` and the triplet count alone. -/

/-- An observable scheduling event: one whole SGD update, or one
cooperative suspension. -/
inductive Ev
  | upd
  | yld
deriving DecidableEq

/-- The events of one epoch (source lines 169-204): `c` is the running
`sinceYield` counter. -/
def epochEvents (Y : ℕ) : ℕ → List Triplet → List Ev
  | _, [] => [.yld]
  | c, _ :: ts =>
    if Y ≤ c + 1 then .upd :: .yld :: epochEvents Y 0 ts
    else .upd :: epochEvents Y (c + 1) ts

/-- The full training trace (source lines 164-205): every epoch
reshuffles the triplet list in place and resets `sinceYield` to `0`
(line 169). -/
def trainEvents (cfg : Cfg) (sh : ℕ → List Triplet → List Triplet) :
    ℕ → ℕ → List Triplet → List Ev
  | _, 0, _ => []
  | e, rem + 1, ts =>
    let ts' := sh e ts
    epochEvents cfg.yieldEvery 0 ts' ++ trainEvents cfg sh (e + 1) rem ts'

/-- Modelled from the spec side of the claim, for comparison with the
code-derived trace: within an epoch of `n` updates, a suspension comes
exactly after every `Y`-th update, and once more at the end of the
epoch; every update is a single atomic event. -/
def specEpochEvents (Y n : ℕ) : List Ev :=
  ((List.range n).flatMap fun t =>
    .upd :: if (t + 1) % Y = 0 then [.yld] else []) ++ [.yld]

/-! ### List helper lemmas -/

theorem getD_set_ne {α : Type} (l : List α) (i j : ℕ) (a d : α) (h : i ≠ j) :
    (l.set i a).getD j d = l.getD j d := by
  simp [List.getD_eq_getElem?_getD, List.getElem?_set_ne h]

theorem getD_set_self {α : Type} (l : List α) (i : ℕ) (a d : α)
    (h : i < l.length) : (l.set i a).getD i d = a := by
  simp [List.getD_eq_getElem?_getD, List.getElem?_set_self h]

/-! ### The inner factor loop: claim C1 -/

theorem sgdFactorLoop_succ (lr reg e : ℚ) (pu qi : List ℚ) (K : ℕ) :
    sgdFactorLoop lr reg e pu qi (K + 1)
      = sgdFactorStep lr reg e (sgdFactorLoop lr reg e pu qi K) K := by
  unfold sgdFactorLoop
  rw [List.range_succ, List.foldl_append]
  rfl

theorem sgdFactorLoop_length (lr reg e : ℚ) (pu qi : List ℚ) (K : ℕ) :
    (sgdFactorLoop lr reg e pu qi K).1.length = pu.length ∧
    (sgdFactorLoop lr reg e pu qi K).2.length = qi.length := by
  induction K with
  | zero => exact ⟨rfl, rfl⟩
  | succ n ih =>
    rw [sgdFactorLoop_succ]
    simp only [sgdFactorStep, List.length_set]
    exact ih

theorem sgdFactorLoop_getD_of_le (lr reg e : ℚ) (pu qi : List ℚ) (K k : ℕ)
    (h : K ≤ k) :
    (sgdFactorLoop lr reg e pu qi K).1.getD k 0 = pu.getD k 0 ∧
    (sgdFactorLoop lr reg e pu qi K).2.getD k 0 = qi.getD k 0 := by
  induction K with
  | zero => exact ⟨rfl, rfl⟩
  | succ n ih =>
    have hn : n ≤ k := Nat.le_of_succ_le h
    have hne : n ≠ k := Nat.ne_of_lt (Nat.lt_of_succ_le h)
    rw [sgdFactorLoop_succ]
    simp only [sgdFactorStep]
    rw [getD_set_ne _ _ _ _ _ hne, getD_set_ne _ _ _ _ _ hne]
    exact ih hn

theorem sgdFactorLoop_formulas (lr reg e : ℚ) (pu qi : List ℚ) (K k : ℕ)
    (hk : k < K) (hp : k < pu.length) (hq : k < qi.length) :
    (sgdFactorLoop lr reg e pu qi K).1.getD k 0
      = pu.getD k 0 + lr * (e * qi.getD k 0 - reg * pu.getD k 0) ∧
    (sgdFactorLoop lr reg e pu qi K).2.getD k 0
      = qi.getD k 0 + lr * (e * pu.getD k 0 - reg * qi.getD k 0) := by
  induction K with
  | zero => exact absurd hk (Nat.not_lt_zero k)
  | succ n ih =>
    rw [sgdFactorLoop_succ]
    rcases Nat.lt_succ_iff_lt_or_eq.mp hk with h | h
    · have hne : n ≠ k := Nat.ne_of_gt h
      simp only [sgdFactorStep]
      rw [getD_set_ne _ _ _ _ _ hne, getD_set_ne _ _ _ _ _ hne]
      exact ih h
    · subst h
      have hpre := sgdFactorLoop_getD_of_le lr reg e pu qi k k le_rfl
      have hlen := sgdFactorLoop_length lr reg e pu qi k
      simp only [sgdFactorStep]
      constructor
      · rw [getD_set_self _ _ _ _ (hlen.1 ▸ hp), hpre.1, hpre.2]
      · rw [getD_set_self _ _ _ _ (hlen.2 ▸ hq), hpre.1, hpre.2]

/-- Claim C1: for an SGD update on rating event `(u, i, r)` with residual
`e = r - rHat`, every dimension `k` of both updated factor rows is
computed from the same pre-update pair `p = userFactors[u][k]`,
`q = itemFactors[i][k]`: the new user entry is
`p + learningRate * (e * q - regularization * p)` and the new item entry
is `q + learningRate * (e * p - regularization * q)`; neither update
reads the already-mutated co-factor. -/
theorem sgdUpdate_factor_formulas (cfg : Cfg) (st : MFState) (u i : ℕ)
    (r : ℚ) (k : ℕ) (hk : k < cfg.K)
    (hu : u < st.P.length) (hi : i < st.Q.length)
    (hp : k < (st.P.getD u []).length) (hq : k < (st.Q.getD i []).length) :
    (((sgdUpdate cfg st ⟨some u, some i, r⟩).1.P.getD u []).getD k 0
      = (st.P.getD u []).getD k 0
        + cfg.lr * ((r - (st.mu + st.bu.getD u 0 + st.bi.getD i 0
            + dot (st.P.getD u []) (st.Q.getD i []))) * (st.Q.getD i []).getD k 0
          - cfg.reg * (st.P.getD u []).getD k 0)) ∧
    (((sgdUpdate cfg st ⟨some u, some i, r⟩).1.Q.getD i []).getD k 0
      = (st.Q.getD i []).getD k 0
        + cfg.lr * ((r - (st.mu + st.bu.getD u 0 + st.bi.getD i 0
            + dot (st.P.getD u []) (st.Q.getD i []))) * (st.P.getD u []).getD k 0
          - cfg.reg * (st.Q.getD i []).getD k 0)) := by
  have hform := sgdFactorLoop_formulas cfg.lr cfg.reg
    (r - (st.mu + st.bu.getD u 0 + st.bi.getD i 0
      + dot (st.P.getD u []) (st.Q.getD i [])))
    (st.P.getD u []) (st.Q.getD i []) cfg.K k hk hp hq
  simp only [sgdUpdate]
  constructor
  · rw [getD_set_self _ _ _ _ hu]
    exact hform.1
  · rw [getD_set_self _ _ _ _ hi]
    exact hform.2

/-- Witness for claim C1: the literal numbers of the spec unit test,
`p = 0.02`, `q = -0.01`, `e = 0.5` (arranged via `mu = 3`, `r = 3.5`,
zero biases and `K = 1` so that `rHat = 3` and `e = 1/2`),
`learningRate = 0.01`, `regularization = 0.05`. -/
theorem sgdUpdate_factor_formulas_witness :
    (((sgdUpdate ⟨1, 1, 1/100, 1/20, 5000⟩
        ⟨3, [0], [0], [[1/50]], [[-(1/100)]], [], [], []⟩
        ⟨some 0, some 0, 7/2⟩).1.P.getD 0 []).getD 0 0
      = ([(1/50 : ℚ)].getD 0 0)
        + (1/100) * ((7/2 - (3 + [(0 : ℚ)].getD 0 0 + [(0 : ℚ)].getD 0 0
            + dot [1/50] [-(1/100)])) * ([-(1/100 : ℚ)].getD 0 0)
          - (1/20) * ([(1/50 : ℚ)].getD 0 0))) := by
  have h := sgdUpdate_factor_formulas ⟨1, 1, 1/100, 1/20, 5000⟩
    ⟨3, [0], [0], [[1/50]], [[-(1/100)]], [], [], []⟩ 0 0 (7/2) 0
    (by decide) (by decide) (by decide) (by decide) (by decide)
  exact h.1

/-! ### Global mean: claims C2 and C3 -/

theorem sgdUpdate_mu (cfg : Cfg) (st : MFState) (t : Triplet) :
    (sgdUpdate cfg st t).1.mu = st.mu := by
  rcases t with ⟨u, i, r⟩
  cases u <;> cases i <;> rfl

theorem runEpoch_mu (cfg : Cfg) :
    ∀ (ts : List Triplet) (st : MFState), (runEpoch cfg st ts).1.mu = st.mu := by
  intro ts
  induction ts with
  | nil => intro st; rfl
  | cons t ts ih =>
    intro st
    have hmu := sgdUpdate_mu cfg st t
    rw [runEpoch]
    rcases h : sgdUpdate cfg st t with ⟨st', o⟩
    rw [h] at hmu
    cases o with
    | none => simpa [ih st'] using hmu
    | some e => simpa using hmu

theorem runEpochs_mu (cfg : Cfg) (sh : ℕ → List Triplet → List Triplet) :
    ∀ (rem e : ℕ) (st : MFState) (ts : List Triplet),
      (runEpochs cfg sh e rem st ts).1.mu = st.mu := by
  intro rem
  induction rem with
  | zero => intro e st ts; rfl
  | succ n ih =>
    intro e st ts
    have hmu := runEpoch_mu cfg (sh e ts) st
    rw [runEpochs]
    rcases h : runEpoch cfg st (sh e ts) with ⟨st', o⟩
    rw [h] at hmu
    cases o with
    | none => simpa [ih (e + 1) st'] using hmu
    | some err => simpa using hmu

theorem foldl_add_rating :
    ∀ (l : List Rating) (c : ℚ),
      l.foldl (fun s r => s + r.rating) c = c + (l.map Rating.rating).sum := by
  intro l
  induction l with
  | nil => intro c; simp
  | cons r l ih =>
    intro c
    simp only [List.foldl_cons, List.map_cons, List.sum_cons, ih]
    ring

/-- Claim C2: for a non-empty rating list (and non-empty index maps, so
that the guard passes and training proceeds), the `mu` field produced by
`trainMF` is exactly the arithmetic mean of the observed ratings. -/
theorem trainMF_mu (cfg : Cfg) (sh : ℕ → List Triplet → List Triplet)
    (nrm : List ℚ → ℚ) (P0 Q0 : List (List ℚ)) (ratings : List Rating)
    (uMap iMap : List (ℕ × ℕ)) (st0 : MFState)
    (h1 : ratings ≠ []) (h2 : uMap ≠ []) (h3 : iMap ≠ []) :
    (trainMF cfg sh nrm P0 Q0 ratings uMap iMap st0).1.mu
      = (ratings.map Rating.rating).sum / (ratings.length : ℚ) := by
  unfold trainMF
  rw [if_neg (by simp [h1, h2, h3])]
  rcases h : runEpochs cfg sh 1 cfg.epochs
      { st0 with
        indexToItemId := buildInverse iMap
        indexToUserId := buildInverse uMap
        mu := (ratings.foldl (fun s r => s + r.rating) 0) / (ratings.length : ℚ)
        bu := List.replicate uMap.length 0
        bi := List.replicate iMap.length 0
        P := P0
        Q := Q0 }
      (ratings.map fun r =>
        Triplet.mk (uMap.lookup r.userId) (iMap.lookup r.itemId) r.rating)
    with ⟨st3, o⟩
  have hmu3 := congrArg (fun p : MFState × Option TrainError => p.1.mu) h
  dsimp only at hmu3
  rw [runEpochs_mu] at hmu3
  cases o <;> simp_all [foldl_add_rating]

/-- Witness for claim C2: ratings `[3, 4, 5]` across two users and one
item give `globalMean = 4`. -/
theorem trainMF_mu_witness :
    (trainMF ⟨1, 1, 1/100, 1/20, 5⟩ (fun _ l => l) (fun _ => 0)
      [[0], [0]] [[0]]
      [⟨1, 1, 3⟩, ⟨2, 1, 4⟩, ⟨1, 1, 5⟩] [(1, 0), (2, 1)] [(1, 0)]
      ⟨0, [], [], [], [], [], [], []⟩).1.mu = 4 := by
  rw [trainMF_mu _ _ _ _ _ _ _ _ _ (by decide) (by decide) (by decide)]
  norm_num

/-- Claim C3: when the rating list is empty, or there are no users, or
no items, `trainMF` fails with the empty-dataset error at the guard
before any allocation, and the module-level model state is returned
unchanged. -/
theorem trainMF_empty_guard (cfg : Cfg) (sh : ℕ → List Triplet → List Triplet)
    (nrm : List ℚ → ℚ) (P0 Q0 : List (List ℚ)) (ratings : List Rating)
    (uMap iMap : List (ℕ × ℕ)) (st0 : MFState)
    (h : ratings = [] ∨ uMap = [] ∨ iMap = []) :
    trainMF cfg sh nrm P0 Q0 ratings uMap iMap st0
      = (st0, some .emptyDataset) := by
  unfold trainMF
  rw [if_pos]
  rcases h with h | h | h <;> simp [h]

/-- Witness for claim C3: an empty rating list (with non-empty maps)
fails with the empty-dataset error and leaves the state untouched. -/
theorem trainMF_empty_guard_witness :
    trainMF ⟨20, 12, 1/100, 1/20, 5000⟩ (fun _ l => l) (fun _ => 0)
      [] [] ([] : List Rating) [(1, 0)] [(1, 0)]
      ⟨0, [], [], [], [], [], [], []⟩
      = (⟨0, [], [], [], [], [], [], []⟩, some .emptyDataset) :=
  trainMF_empty_guard _ _ _ _ _ _ _ _ _ (Or.inl rfl)

/-! ### The query contract: claims C4, C5, C10 -/

theorem candidates_fst_ne (Qunit : List (List ℚ)) (i : ℕ) :
    ∀ p ∈ candidates Qunit i, p.1 ≠ i := by
  intro p hp
  rw [candidates, List.mem_filterMap] at hp
  obtain ⟨j, _, hcond⟩ := hp
  by_cases h : j = i
  · simp [h] at hcond
  · rw [if_neg h] at hcond
    cases hcond
    exact h

theorem simLe_trans :
    ∀ a b c : ℕ × ℚ, simLe a b = true → simLe b c = true → simLe a c = true := by
  intro a b c h1 h2
  simp only [simLe, decide_eq_true_eq] at h1 h2 ⊢
  exact le_trans h2 h1

theorem simLe_total : ∀ a b : ℕ × ℚ, (simLe a b || simLe b a) = true := by
  intro a b
  simp only [simLe, Bool.or_eq_true, decide_eq_true_eq]
  exact le_total b.2 a.2

theorem sortSims_perm (l : List (ℕ × ℚ)) : (sortSims l).Perm l :=
  List.mergeSort_perm l simLe

theorem sortSims_sorted (l : List (ℕ × ℚ)) :
    (sortSims l).Pairwise (fun a b => b.2 ≤ a.2) := by
  have h := List.sorted_mergeSort simLe_trans simLe_total l
  exact h.imp (by intro a b hab; simpa [simLe] using hab)

/-- Claim C4, amended: for a valid item index `i` and a nonnegative `k`,
`topKSimilarIdx` returns at most `k` pairs, never containing `i` itself,
sorted by similarity descending; `k = 0` yields the empty sequence, and
a `k` at least the number of candidates yields all candidates, ranked.
(The original claim also asserted that every negative `k` yields the
empty sequence, which the slice semantics of the code refutes.) -/
theorem topKSimilarIdx_spec (Qunit : List (List ℚ)) (i : ℕ) (k : ℤ)
    (hi : i < Qunit.length) (hk : 0 ≤ k) :
    ((topKSimilarIdx Qunit i k).length : ℤ) ≤ k ∧
    (∀ p ∈ topKSimilarIdx Qunit i k, p.1 ≠ i) ∧
    (topKSimilarIdx Qunit i k).Pairwise (fun a b => b.2 ≤ a.2) ∧
    (k = 0 → topKSimilarIdx Qunit i k = []) ∧
    (((candidates Qunit i).length : ℤ) ≤ k →
      topKSimilarIdx Qunit i k = sortSims (candidates Qunit i)) := by
  have hslice : topKSimilarIdx Qunit i k
      = (sortSims (candidates Qunit i)).take k.toNat := by
    rw [topKSimilarIdx, jsSlice, if_pos hk]
  refine ⟨?_, ?_, ?_, ?_, ?_⟩
  · have h2 : ((sortSims (candidates Qunit i)).take k.toNat).length ≤ k.toNat := by
      rw [List.length_take]; exact min_le_left _ _
    calc (((topKSimilarIdx Qunit i k).length : ℤ))
        = (((sortSims (candidates Qunit i)).take k.toNat).length : ℤ) := by rw [hslice]
      _ ≤ (k.toNat : ℤ) := by exact_mod_cast h2
      _ = k := Int.toNat_of_nonneg hk
  · intro p hp
    rw [hslice] at hp
    have hmem : p ∈ sortSims (candidates Qunit i) :=
      (List.take_sublist _ _).subset hp
    have : p ∈ candidates Qunit i := (sortSims_perm _).mem_iff.mp hmem
    exact candidates_fst_ne Qunit i p this
  · rw [hslice]
    exact (sortSims_sorted _).sublist (List.take_sublist _ _)
  · intro h0
    rw [hslice, h0]
    rfl
  · intro hlen
    rw [hslice]
    apply List.take_of_length_le
    rw [(sortSims_perm (candidates Qunit i)).length_eq]
    exact (Int.le_toNat hk).mpr hlen

/-- Witness for claim C4 (amended): a three-item table queried at index
`0` with `k = 2`. -/
theorem topKSimilarIdx_spec_witness :
    ((topKSimilarIdx [[1], [0], [1]] 0 2).length : ℤ) ≤ 2 ∧
    (∀ p ∈ topKSimilarIdx [[1], [0], [1]] 0 2, p.1 ≠ 0) ∧
    (topKSimilarIdx [[1], [0], [1]] 0 2).Pairwise (fun a b => b.2 ≤ a.2) ∧
    ((2 : ℤ) = 0 → topKSimilarIdx [[1], [0], [1]] 0 2 = []) ∧
    (((candidates [[1], [0], [1]] 0).length : ℤ) ≤ 2 →
      topKSimilarIdx [[1], [0], [1]] 0 2 = sortSims (candidates [[1], [0], [1]] 0)) :=
  topKSimilarIdx_spec [[1], [0], [1]] 0 2 (by decide) (by decide)

/-- Counterexample for claim C4 as stated: the claim demands an empty
result for every `k ≤ 0`, but `slice(0, -1)` on the ranked candidate
list of a three-item table keeps everything but the last element, so
the query with `k = -1` returns a nonempty sequence. -/
theorem topKSimilarIdx_negative_k :
    topKSimilarIdx [[1], [0], [1]] 0 (-1) ≠ [] := by
  have hlen2 : (sortSims (candidates [[1], [0], [1]] 0)).length = 2 := by
    rw [(sortSims_perm _).length_eq]
    decide
  rw [topKSimilarIdx, jsSlice, if_neg (by decide)]
  intro h
  have hl := congrArg List.length h
  rw [List.length_take, hlen2] at hl
  exact absurd hl (by decide)

/-- Claim C5: an item id with no entry in `itemIdToIndex` (an invalid
reference into the trained item set) makes `topKSimilarItems` return
the empty sequence; the embedded query is a total function, so it never
raises. -/
theorem topKSimilarItems_unknown_id (st : SimIndex) (itemId : ℕ) (k : ℤ)
    (h : st.itemIdToIndex.lookup itemId = none) :
    topKSimilarItems st itemId k = [] := by
  rw [topKSimilarItems, h]

/-- Witness for claim C5: item id `2` is absent from a map holding only
id `1`, and the query returns `[]`. -/
theorem topKSimilarItems_unknown_id_witness :
    topKSimilarItems ⟨[(1, 0)], [some 1], [[1]]⟩ 2 5 = [] :=
  topKSimilarItems_unknown_id ⟨[(1, 0)], [some 1], [[1]]⟩ 2 5 (by decide)

/-- Claim C10: with an empty `Qunit` table (the model has not been
trained), `topKSimilarItems` returns the empty sequence for every item
id and every `k`, even when the id is present in `itemIdToIndex`. -/
theorem topKSimilarItems_untrained (m : List (ℕ × ℕ))
    (inv : List (Option ℕ)) (itemId : ℕ) (k : ℤ) :
    topKSimilarItems ⟨m, inv, []⟩ itemId k = [] := by
  rw [topKSimilarItems]
  cases h : m.lookup itemId <;> simp

/-! ### Normalization: claim C6 -/

theorem map_range_getD_div (v : List ℚ) (n : ℚ) :
    (List.range v.length).map (fun k => v.getD k 0 / n)
      = v.map (fun x => x / n) := by
  induction v with
  | nil => rfl
  | cons a t ih =>
    simp only [List.length_cons, List.range_succ_eq_map, List.map_cons,
      List.map_map, Function.comp_def, Nat.succ_eq_add_one,
      List.getD_cons_zero, List.getD_cons_succ]
    rw [ih]

/-- Claim C6: with `n` the value `l2norm(v)` computed by the source
(characterized by `0 ≤ n` and `n * n = sumSq v`, the defining property
of the nonnegative square root), the normalized entry of the `Qunit`
table for a factor vector `v` of length `K` is `v` divided pointwise by
its norm when the norm is nonzero, and the all-zero vector of length
`K` when the norm is zero (the division is guarded, so it is never
performed with a zero divisor); a vector that already has unit length
is returned unchanged. -/
theorem normalizeItem_spec (K : ℕ) (v : List ℚ) (n : ℚ)
    (hnn : 0 ≤ n) (hchar : n * n = sumSq v) (hlen : v.length = K) :
    (n ≠ 0 → normalizeItem K v n = v.map (fun x => x / n)) ∧
    (n = 0 → normalizeItem K v n = List.replicate K 0) ∧
    (sumSq v = 1 → normalizeItem K v n = v) := by
  refine ⟨?_, ?_, ?_⟩
  · intro hne
    rw [normalizeItem, if_neg hne, ← hlen, map_range_getD_div]
  · intro h0
    rw [normalizeItem, if_pos h0]
  · intro hunit
    have hone : n * n = 1 := by rw [hchar, hunit]
    have hn1 : n = 1 := by
      rcases mul_self_eq_one_iff.mp hone with h | h
      · exact h
      · exfalso; rw [h] at hnn; norm_num at hnn
    rw [normalizeItem, if_neg (by rw [hn1]; norm_num), hn1, ← hlen,
      map_range_getD_div]
    simp

/-- Witness for claim C6: the unit vector `[3/5, 4/5]` has norm `1` and
normalizes to itself. -/
theorem normalizeItem_spec_witness :
    normalizeItem 2 [3/5, 4/5] 1 = [3/5, 4/5] :=
  (normalizeItem_spec 2 [3/5, 4/5] 1 (by norm_num) (by norm_num [sumSq])
    (by rfl)).2.2 (by norm_num [sumSq])

/-! ### Similarity symmetry: claim C8 -/

theorem dot_comm (a b : List ℚ) : dot a b = dot b a := by
  induction a generalizing b with
  | nil => cases b <;> rfl
  | cons x xs ih =>
    cases b with
    | nil => rfl
    | cons y ys => simp only [dot, ih, mul_comm]

theorem lookup_filterMap_if {β : Type} (i : ℕ) (g : ℕ → β) :
    ∀ (L : List ℕ) (j : ℕ), j ∈ L → j ≠ i →
      (L.filterMap fun j' => if j' = i then none else some (j', g j')).lookup j
        = some (g j) := by
  intro L
  induction L with
  | nil => intro j hj _; exact absurd hj (List.not_mem_nil j)
  | cons a L ih =>
    intro j hj hji
    rcases List.mem_cons.mp hj with rfl | hmem
    · rw [List.filterMap_cons, if_neg hji]
      simp [List.lookup_cons]
    · by_cases ha : a = i
      · rw [List.filterMap_cons, if_pos ha]
        exact ih j hmem hji
      · rw [List.filterMap_cons, if_neg ha]
        by_cases hja : j = a
        · subst hja
          simp [List.lookup_cons]
        · simp only [List.lookup_cons]
          rw [show (j == a) = false from beq_eq_false_iff_ne.mpr hja]
          exact ih j hmem hji

/-- The similarity score a candidate `j` receives inside a query for
item `i` (the `sims` list of source lines 225-232) is
`dot(Qunit[i], Qunit[j])`. -/
theorem candidates_lookup (Qunit : List (List ℚ)) (i j : ℕ)
    (hj : j < Qunit.length) (hne : j ≠ i) :
    (candidates Qunit i).lookup j
      = some (dot (Qunit.getD i []) (Qunit.getD j [])) := by
  rw [candidates]
  exact lookup_filterMap_if i (fun j' => dot (Qunit.getD i []) (Qunit.getD j' []))
    (List.range Qunit.length) j (List.mem_range.mpr hj) hne

/-- Claim C8: for two distinct valid item indices `i` and `j`, the
similarity score item `j` receives in the candidate list of a query for
item `i` equals the score item `i` receives in a query for item `j`
(the cosine over the shared normalized table is symmetric). -/
theorem candidates_lookup_symm (Qunit : List (List ℚ)) (i j : ℕ)
    (hi : i < Qunit.length) (hj : j < Qunit.length) (hij : i ≠ j) :
    (candidates Qunit i).lookup j = (candidates Qunit j).lookup i := by
  rw [candidates_lookup Qunit i j hj (Ne.symm hij),
    candidates_lookup Qunit j i hi hij]
  rw [dot_comm]

/-- Witness for claim C8: a two-item table, queried both ways. -/
theorem candidates_lookup_symm_witness :
    (candidates [[1], [2]] 0).lookup 1 = (candidates [[1], [2]] 1).lookup 0 :=
  candidates_lookup_symm [[1], [2]] 0 1 (by decide) (by decide) (by decide)

/-! ### Yield cadence: claim C9 -/

theorem epochEvents_eq (Y : ℕ) (hY : 0 < Y) :
    ∀ (ts : List Triplet) (c : ℕ), c < Y →
      epochEvents Y c ts
        = ((List.range ts.length).flatMap fun t =>
            Ev.upd :: if (c + t + 1) % Y = 0 then [Ev.yld] else []) ++ [Ev.yld] := by
  intro ts
  induction ts with
  | nil => intro c _; rfl
  | cons t ts ih =>
    intro c hc
    simp only [epochEvents]
    rw [List.length_cons, List.range_succ_eq_map, List.flatMap_cons,
      List.flatMap_map]
    by_cases h : Y ≤ c + 1
    · have hcY : c + 1 = Y := Nat.le_antisymm (Nat.succ_le_of_lt hc) h
      have hmod : (c + 0 + 1) % Y = 0 := by
        rw [Nat.add_zero, hcY, Nat.mod_self]
      have hfun : (fun a => Ev.upd ::
            (if (c + Nat.succ a + 1) % Y = 0 then [Ev.yld] else []))
          = (fun t => Ev.upd ::
            (if (0 + t + 1) % Y = 0 then [Ev.yld] else [])) := by
        funext a
        rw [show c + Nat.succ a + 1 = Y + (a + 1) from by omega,
          Nat.add_mod_left]
        norm_num
      rw [if_pos h, ih 0 hY, hmod, hfun]
      simp
    · have hlt : c + 1 < Y := Nat.lt_of_not_le h
      have hmod : (c + 0 + 1) % Y = c + 1 := by
        rw [Nat.add_zero, Nat.mod_eq_of_lt hlt]
      have hfun : (fun a => Ev.upd ::
            (if (c + Nat.succ a + 1) % Y = 0 then [Ev.yld] else []))
          = (fun t => Ev.upd ::
            (if (c + 1 + t + 1) % Y = 0 then [Ev.yld] else [])) := by
        funext a
        rw [show c + Nat.succ a + 1 = c + 1 + a + 1 from by omega]
      rw [if_neg h, ih (c + 1) hlt, hmod, hfun]
      simp

theorem epochEvents_zero (Y : ℕ) (hY : 0 < Y) (ts : List Triplet) :
    epochEvents Y 0 ts = specEpochEvents Y ts.length := by
  rw [epochEvents_eq Y hY ts 0 hY, specEpochEvents]
  have hfun : (fun t => Ev.upd ::
        (if (0 + t + 1) % Y = 0 then [Ev.yld] else []))
      = (fun t => Ev.upd ::
        (if (t + 1) % Y = 0 then [Ev.yld] else [])) := by
    funext t
    rw [Nat.zero_add]
  rw [hfun]

theorem trainEvents_eq (cfg : Cfg) (sh : ℕ → List Triplet → List Triplet)
    (hY : 0 < cfg.yieldEvery) (hsh : ∀ e l, (sh e l).length = l.length) :
    ∀ (rem e : ℕ) (ts : List Triplet),
      trainEvents cfg sh e rem ts
        = (List.replicate rem
            (specEpochEvents cfg.yieldEvery ts.length)).flatten := by
  intro rem
  induction rem with
  | zero => intro e ts; rfl
  | succ n ih =>
    intro e ts
    simp only [trainEvents]
    rw [List.replicate_succ, List.flatten_cons]
    congr 1
    · rw [epochEvents_zero _ hY, hsh]
    · rw [ih (e + 1) (sh e ts), hsh]

/-- Claim C9: the event trace of a full training run is, for every
epoch, exactly the spec-side cadence: one atomic `upd` event per rating
update (the update is never split across a suspension), a `yld`
suspension exactly after every `yieldEvery`-th update of the epoch
regardless of position, and one more `yld` at the end of every epoch. -/
theorem trainMF_yield_cadence (cfg : Cfg)
    (sh : ℕ → List Triplet → List Triplet) (ts : List Triplet)
    (hY : 0 < cfg.yieldEvery) (hsh : ∀ e l, (sh e l).length = l.length) :
    trainEvents cfg sh 1 cfg.epochs ts
      = (List.replicate cfg.epochs
          (specEpochEvents cfg.yieldEvery ts.length)).flatten :=
  trainEvents_eq cfg sh hY hsh cfg.epochs 1 ts

/-- Witness for claim C9: two epochs over three updates with
`yieldEvery = 2` (the identity shuffle). -/
theorem trainMF_yield_cadence_witness :
    trainEvents ⟨1, 2, 1, 1, 2⟩ (fun _ l => l) 1 2
        [⟨some 0, some 0, 1⟩, ⟨some 0, some 0, 1⟩, ⟨some 0, some 0, 1⟩]
      = (List.replicate 2 (specEpochEvents 2
          ([⟨some 0, some 0, 1⟩, ⟨some 0, some 0, 1⟩,
            (⟨some 0, some 0, 1⟩ : Triplet)]).length)).flatten :=
  trainMF_yield_cadence ⟨1, 2, 1, 1, 2⟩ (fun _ l => l)
    [⟨some 0, some 0, 1⟩, ⟨some 0, some 0, 1⟩, ⟨some 0, some 0, 1⟩]
    (by decide) (fun _ _ => rfl)

/-! ### No defensive index check: claim C7 -/

theorem sgdUpdate_bad (cfg : Cfg) (st : MFState) (t : Triplet)
    (h : t.u = none ∨ t.i = none) :
    sgdUpdate cfg st t = (st, some .typeError) := by
  rcases t with ⟨u, i, r⟩
  rcases h with h | h
  · simp only at h
    subst h
    cases i <;> rfl
  · simp only at h
    subst h
    cases u <;> rfl

theorem runEpoch_bad (cfg : Cfg) :
    ∀ (ts : List Triplet) (st : MFState),
      (∃ t ∈ ts, t.u = none ∨ t.i = none) →
      (runEpoch cfg st ts).2 = some .typeError := by
  intro ts
  induction ts with
  | nil =>
    intro st h
    rcases h with ⟨t, ht, _⟩
    exact absurd ht (List.not_mem_nil t)
  | cons t ts ih =>
    intro st h
    rcases t with ⟨u, i, r⟩
    cases u with
    | none =>
      cases i <;> simp [runEpoch, sgdUpdate]
    | some u0 =>
      cases i with
      | none => simp [runEpoch, sgdUpdate]
      | some i0 =>
        have hts : ∃ t' ∈ ts, t'.u = none ∨ t'.i = none := by
          rcases h with ⟨t', ht', hb⟩
          rcases List.mem_cons.mp ht' with rfl | hm
          · simp at hb
          · exact ⟨t', hm, hb⟩
        simp only [runEpoch, sgdUpdate]
        exact ih _ hts

theorem runEpochs_bad (cfg : Cfg) (sh : ℕ → List Triplet → List Triplet)
    (hsh : ∀ e l, (sh e l).Perm l) :
    ∀ (rem e : ℕ) (st : MFState) (ts : List Triplet), 0 < rem →
      (∃ t ∈ ts, t.u = none ∨ t.i = none) →
      (runEpochs cfg sh e rem st ts).2 = some .typeError := by
  intro rem e st ts hrem hbad
  cases rem with
  | zero => exact absurd hrem (by omega)
  | succ n =>
    have hbad' : ∃ t ∈ sh e ts, t.u = none ∨ t.i = none := by
      rcases hbad with ⟨t, ht, hb⟩
      exact ⟨t, (hsh e ts).mem_iff.mpr ht, hb⟩
    have herr := runEpoch_bad cfg (sh e ts) st hbad'
    simp only [runEpochs]
    rcases hre : runEpoch cfg st (sh e ts) with ⟨st', o⟩
    rw [hre] at herr
    simp only at herr
    subst herr
    rfl

/-- Claim C7, amended: the trainer performs no defensive range check on
rating indices and defines no dedicated invalid-index error; when any
rating references an id absent from the index maps, the training run
fails fatally with the `TypeError` crash raised inside the update loop
(once the offending triplet is reached), after the parameters have
already been allocated. -/
theorem trainMF_unmapped_typeError (cfg : Cfg)
    (sh : ℕ → List Triplet → List Triplet) (nrm : List ℚ → ℚ)
    (P0 Q0 : List (List ℚ)) (ratings : List Rating)
    (uMap iMap : List (ℕ × ℕ)) (st0 : MFState)
    (hep : 0 < cfg.epochs) (hsh : ∀ e l, (sh e l).Perm l)
    (hu : uMap ≠ []) (hi : iMap ≠ [])
    (hbad : ∃ r ∈ ratings,
      uMap.lookup r.userId = none ∨ iMap.lookup r.itemId = none) :
    (trainMF cfg sh nrm P0 Q0 ratings uMap iMap st0).2
      = some .typeError := by
  have hne : ratings ≠ [] := by
    rintro rfl
    rcases hbad with ⟨r, hr, _⟩
    exact absurd hr (List.not_mem_nil r)
  have hbadT : ∃ t ∈ (ratings.map fun r =>
      Triplet.mk (uMap.lookup r.userId) (iMap.lookup r.itemId) r.rating),
      t.u = none ∨ t.i = none := by
    rcases hbad with ⟨r, hr, hb⟩
    exact ⟨_, List.mem_map_of_mem _ hr, by simpa using hb⟩
  have h2 := runEpochs_bad cfg sh hsh cfg.epochs 1
    { st0 with
      indexToItemId := buildInverse iMap
      indexToUserId := buildInverse uMap
      mu := (ratings.foldl (fun s r => s + r.rating) 0) / (ratings.length : ℚ)
      bu := List.replicate uMap.length 0
      bi := List.replicate iMap.length 0
      P := P0
      Q := Q0 }
    (ratings.map fun r =>
      Triplet.mk (uMap.lookup r.userId) (iMap.lookup r.itemId) r.rating)
    hep hbadT
  unfold trainMF
  rw [if_neg (by simp [hne, hu, hi])]
  rcases hre : runEpochs cfg sh 1 cfg.epochs
      { st0 with
        indexToItemId := buildInverse iMap
        indexToUserId := buildInverse uMap
        mu := (ratings.foldl (fun s r => s + r.rating) 0) / (ratings.length : ℚ)
        bu := List.replicate uMap.length 0
        bi := List.replicate iMap.length 0
        P := P0
        Q := Q0 }
      (ratings.map fun r =>
        Triplet.mk (uMap.lookup r.userId) (iMap.lookup r.itemId) r.rating)
    with ⟨st3, o⟩
  rw [hre] at h2
  simp only at h2
  subst h2
  dsimp only
  rw [hre]

/-- Witness for claim C7 (amended): a second rating referencing the
unmapped item id `9` makes training fail with the `TypeError` crash. -/
theorem trainMF_unmapped_typeError_witness :
    (trainMF ⟨1, 1, 1/100, 1/20, 5000⟩ (fun _ l => l) (fun _ => 0)
      [[0]] [[0]] [⟨1, 7, 4⟩, ⟨1, 9, 2⟩] [(1, 0)] [(7, 0)]
      ⟨0, [], [], [], [], [], [], []⟩).2 = some .typeError :=
  trainMF_unmapped_typeError _ _ _ _ _ _ _ _ _ (by decide)
    (fun _ _ => List.Perm.refl _) (by decide) (by decide)
    ⟨⟨1, 9, 2⟩, List.mem_cons_of_mem _ (List.mem_singleton_self _),
      Or.inr rfl⟩

/-- Counterexample for claim C7 as stated: on a dataset whose second
rating references the unmapped item id `9`, the trainer does not fail
at a defensive pre-check; it computes the global mean, allocates the
parameters, applies the first update in full (the biases already hold
`1/100`), and only then crashes with a `TypeError` when the bad triplet
is dereferenced. -/
theorem trainMF_no_defensive_check :
    trainMF ⟨1, 1, 1/100, 1/20, 5000⟩ (fun _ l => l) (fun _ => 0)
      [[0]] [[0]] [⟨1, 7, 4⟩, ⟨1, 9, 2⟩] [(1, 0)] [(7, 0)]
      ⟨0, [], [], [], [], [], [], []⟩
      = (⟨3, [1/100], [1/100], [[0]], [[0]], [], [some 7], [some 1]⟩,
         some .typeError) := by
  norm_num [trainMF, runEpochs, runEpoch, sgdUpdate, sgdFactorLoop,
    sgdFactorStep, dot, buildInverse, setGrow, List.lookup, List.range_succ,
    show ((9 : ℕ) == 7) = false from rfl, show ((7 : ℕ) == 7) = true from rfl,
    show ((1 : ℕ) == 1) = true from rfl]

end MFRec
